import Mathlib

/-!
# Verification of the nodebase repository specification

The repository is a minimal Next.js + Prisma application: a database client
accessor with an environment-gated singleton (src/lib/db.ts), a page renderer
that fetches all User rows and renders their JSON serialization inside a
button (src/app/page.tsx), and a declarative Prisma schema (prisma/schema.prisma).
Only the test suites for these files are in the provided sources, so the
definitions below are modelled from the specification document and checked
against the behaviour the tests pin down.
-/

namespace Nodebase

/-- A JSON value, the data interchanged between the mocked query layer and the
renderer: null, booleans, integer numbers (the only numbers appearing in the
data model), strings (as lists of characters), arrays and objects. -/
inductive Json where
  | null : Json
  | bool (b : Bool) : Json
  | num (n : Int) : Json
  | str (s : List Char) : Json
  | arr (elems : List Json) : Json
  | obj (fields : List (List Char × Json)) : Json

/-- The opening curly brace character. -/
def openBrace : Char := '\x7b'

/-- The closing curly brace character. -/
def closeBrace : Char := '\x7d'

/-- The decimal digit character for a digit value below ten. -/
def digitChar (d : Nat) : Char := Char.ofNat (48 + d)

/-- Lowercase hexadecimal digit character for a value below sixteen. -/
def hexDigitChar (d : Nat) : Char :=
  if d < 10 then digitChar d else Char.ofNat (87 + d)

/-- The decimal digit characters of a natural number, most significant first,
as produced by JavaScript number-to-string conversion on a natural number. -/
def natChars (n : Nat) : List Char :=
  if _h : n < 10 then [digitChar n] else natChars (n / 10) ++ [digitChar (n % 10)]
decreasing_by exact Nat.div_lt_self (by omega) (by omega)

/-- The decimal character rendering of an integer, a leading minus sign for
negative values, as produced by JavaScript number-to-string conversion. -/
def intChars (i : Int) : List Char :=
  if i < 0 then '-' :: natChars i.natAbs else natChars i.natAbs

/-- The escape sequence JSON.stringify emits for one character of a string:
quote and backslash are backslash-escaped, the named control characters use
their short escapes, the remaining control characters use a unicode escape,
and every other character is passed through unmodified. -/
def encodeChar (c : Char) : List Char :=
  if c = '"' then ['\\', '"']
  else if c = '\\' then ['\\', '\\']
  else if c = '\x08' then ['\\', 'b']
  else if c = '\t' then ['\\', 't']
  else if c = '\n' then ['\\', 'n']
  else if c = '\x0c' then ['\\', 'f']
  else if c = '\r' then ['\\', 'r']
  else if c.toNat < 32 then
    ['\\', 'u', '0', '0', hexDigitChar (c.toNat / 16), hexDigitChar (c.toNat % 16)]
  else [c]

/-- The body of a JSON string literal: each character escaped as needed. -/
def escapeBody : List Char → List Char
  | [] => []
  | c :: t => encodeChar c ++ escapeBody t

/-- A complete JSON string literal: quote, escaped body, quote. -/
def encodeStr (s : List Char) : List Char :=
  '"' :: escapeBody s ++ ['"']

/-- The keyword a JSON boolean serializes to. -/
def boolChars (b : Bool) : List Char :=
  if b then ['t', 'r', 'u', 'e'] else ['f', 'a', 'l', 's', 'e']

mutual

/-- Modelled from the spec: the serialization step of the page renderer
(src/app/page.tsx is not in the provided sources; only its tests are).
JSON.stringify with no indentation argument: no whitespace, object fields in
insertion order, strings escaped per the standard rules. -/
def stringify : Json → List Char
  | .null => ['n', 'u', 'l', 'l']
  | .bool b => boolChars b
  | .num i => intChars i
  | .str s => encodeStr s
  | .arr [] => ['[', ']']
  | .arr (x :: xs) => '[' :: (stringify x ++ stringifyElems xs ++ [']'])
  | .obj [] => [openBrace, closeBrace]
  | .obj (f :: fs) => openBrace :: (stringifyField f ++ stringifyFields fs ++ [closeBrace])

/-- The remaining elements of a serialized JSON array, each preceded by a comma. -/
def stringifyElems : List Json → List Char
  | [] => []
  | x :: xs => ',' :: (stringify x ++ stringifyElems xs)

/-- One serialized JSON object field: quoted key, colon, serialized value. -/
def stringifyField : List Char × Json → List Char
  | (k, v) => encodeStr k ++ ':' :: stringify v

/-- The remaining fields of a serialized JSON object, each preceded by a comma. -/
def stringifyFields : List (List Char × Json) → List Char
  | [] => []
  | f :: fs => ',' :: (stringifyField f ++ stringifyFields fs)

end

/-- Whether a character is a decimal digit. -/
def isDigitCh (c : Char) : Bool := 48 ≤ c.toNat && c.toNat ≤ 57

/-- Whether a list of characters does not start with a decimal digit; a number
in serialized JSON is always followed by input of this shape. -/
def headNotDigit : List Char → Bool
  | [] => true
  | c :: _ => !isDigitCh c

/-- The numeric value of a hexadecimal digit character (digits, lowercase and
uppercase letters); other characters read as zero. -/
def hexVal (c : Char) : Nat :=
  if 48 ≤ c.toNat && c.toNat ≤ 57 then c.toNat - 48
  else if 97 ≤ c.toNat && c.toNat ≤ 102 then c.toNat - 87
  else if 65 ≤ c.toNat && c.toNat ≤ 70 then c.toNat - 55
  else 0

/-- The character a short escape sequence denotes, when the character after
the backslash is not the unicode escape marker. -/
def unescChar (e : Char) : Option Char :=
  if e = '"' then some '"'
  else if e = '\\' then some '\\'
  else if e = '/' then some '/'
  else if e = 'b' then some '\x08'
  else if e = 'f' then some '\x0c'
  else if e = 'n' then some '\n'
  else if e = 'r' then some '\r'
  else if e = 't' then some '\t'
  else none

/-- Reads the body of a JSON string literal up to and including its closing
quote, decoding escape sequences; returns the decoded characters and the
input remaining after the closing quote. -/
def unescape : List Char → Option (List Char × List Char)
  | [] => none
  | c :: r =>
    if c = '"' then some ([], r)
    else if c = '\\' then
      match r with
      | [] => none
      | e :: r1 =>
        if e = 'u' then
          match r1 with
          | h1 :: h2 :: h3 :: h4 :: r2 =>
            (unescape r2).map (fun p =>
              (Char.ofNat (((hexVal h1 * 16 + hexVal h2) * 16 + hexVal h3) * 16 + hexVal h4)
                :: p.1, p.2))
          | _ => none
        else
          match unescChar e with
          | some d => (unescape r1).map (fun p => (d :: p.1, p.2))
          | none => none
    else (unescape r).map (fun p => (c :: p.1, p.2))

/-- Accumulates the decimal digits at the front of the input onto `acc`,
stopping at the first non-digit character. -/
def parseDigits (acc : Nat) : List Char → Nat × List Char
  | [] => (acc, [])
  | c :: r =>
    if isDigitCh c then parseDigits (acc * 10 + (c.toNat - 48)) r else (acc, c :: r)

mutual

/-- A recursive-descent reader for one JSON value at the front of the input,
with explicit recursion fuel; whitespace never occurs in JSON.stringify output
and is not skipped. Returns the value and the remaining input. -/
def parseVal : Nat → List Char → Option (Json × List Char)
  | 0, _ => none
  | fuel + 1, s =>
    match s with
    | [] => none
    | c :: r =>
      if c = 'n' then
        match r with
        | 'u' :: 'l' :: 'l' :: r1 => some (.null, r1)
        | _ => none
      else if c = 't' then
        match r with
        | 'r' :: 'u' :: 'e' :: r1 => some (.bool true, r1)
        | _ => none
      else if c = 'f' then
        match r with
        | 'a' :: 'l' :: 's' :: 'e' :: r1 => some (.bool false, r1)
        | _ => none
      else if c = '"' then
        (unescape r).map (fun p => (.str p.1, p.2))
      else if c = '[' then
        match r with
        | [] => none
        | d :: r1 =>
          if d = ']' then some (.arr [], r1)
          else (parseItems fuel (d :: r1)).map (fun p => (.arr p.1, p.2))
      else if c = openBrace then
        match r with
        | [] => none
        | d :: r1 =>
          if d = closeBrace then some (.obj [], r1)
          else (parseFields fuel (d :: r1)).map (fun p => (.obj p.1, p.2))
      else if c = '-' then
        match r with
        | [] => none
        | d :: r1 =>
          if isDigitCh d then
            let p := parseDigits (d.toNat - 48) r1
            some (.num (-(p.1 : Int)), p.2)
          else none
      else if isDigitCh c then
        let p := parseDigits (c.toNat - 48) r
        some (.num (p.1 : Int), p.2)
      else none

/-- Reads the comma-separated elements of a nonempty JSON array together with
the closing bracket. -/
def parseItems : Nat → List Char → Option (List Json × List Char)
  | 0, _ => none
  | fuel + 1, s =>
    match parseVal fuel s with
    | none => none
    | some (j, r) =>
      match r with
      | [] => none
      | c :: r1 =>
        if c = ',' then (parseItems fuel r1).map (fun p => (j :: p.1, p.2))
        else if c = ']' then some ([j], r1)
        else none

/-- Reads the comma-separated fields of a nonempty JSON object together with
the closing brace. -/
def parseFields : Nat → List Char → Option (List (List Char × Json) × List Char)
  | 0, _ => none
  | fuel + 1, s =>
    match s with
    | [] => none
    | c :: r =>
      if c = '"' then
        match unescape r with
        | none => none
        | some (k, r1) =>
          match r1 with
          | [] => none
          | c1 :: r2 =>
            if c1 = ':' then
              match parseVal fuel r2 with
              | none => none
              | some (v, r3) =>
                match r3 with
                | [] => none
                | c3 :: r4 =>
                  if c3 = ',' then (parseFields fuel r4).map (fun p => ((k, v) :: p.1, p.2))
                  else if c3 = closeBrace then some ([(k, v)], r4)
                  else none
            else none
      else none

end

/-- JSON.parse as the round-trip check uses it: reads one JSON value with fuel
bounded by the input length and requires the whole input to be consumed. -/
def parse (s : List Char) : Option Json :=
  match parseVal s.length s with
  | some (j, t) => if t = [] then some j else none
  | none => none

/-- A User record as returned by the fetch-all query: integer identity,
required email text, optional name text (a missing name is the SQL null that
the query layer reports for an optional column). -/
structure User where
  id : Int
  email : List Char
  name : Option (List Char)

/-- The JSON object a User record serializes to: fields in declaration order,
an absent name serialized as JSON null. -/
def userJson (u : User) : Json :=
  Json.obj [(['i', 'd'], Json.num u.id),
            (['e', 'm', 'a', 'i', 'l'], Json.str u.email),
            (['n', 'a', 'm', 'e'], u.name.elim Json.null Json.str)]

/-- The JSON array a query result consisting of the records R serializes to. -/
def usersJson (R : List User) : Json := Json.arr (R.map userJson)

/-- A promise rejection reason: either an Error instance (carrying a message)
or an arbitrary non-Error value. -/
inductive Reason where
  | jsError (message : List Char) : Reason
  | jsValue (v : Json) : Reason

/-- What the fetch-all query resolves with: a JSON value in ordinary
operation, or the JavaScript undefined value in the degenerate mock case. -/
inductive QueryResult where
  | undef : QueryResult
  | val (j : Json) : QueryResult

/-- The outcome of awaiting the fetch-all query: resolution with a result or
rejection with a reason. -/
inductive QueryOutcome where
  | resolved (r : QueryResult) : QueryOutcome
  | rejected (x : Reason) : QueryOutcome

/-- A query issued against the database client: a findMany call on a table
with its argument list. -/
inductive QueryCall where
  | findMany (table : List Char) (args : List Json) : QueryCall

/-- The rendered output element: its tag and its visible text content. -/
structure Element where
  tag : List Char
  text : List Char

/-- The visible text the renderer embeds in the button: the JSON serialization
of the resolved value; awaiting a query that resolves with undefined makes
JSON.stringify return undefined, which React renders as no text at all. -/
def pageText : QueryResult → List Char
  | .undef => []
  | .val j => stringify j

/-- Modelled from the spec: one render invocation of the page component
(src/app/page.tsx is not in the provided sources; only its tests are). The
invocation issues exactly one argumentless findMany query on the User table,
awaits it, and either rejects with the rejection reason unchanged or produces
a button element whose visible text is the serialized query result. The
second component is the trace of queries the invocation issued. -/
def runPage (q : QueryOutcome) : Except Reason Element × List QueryCall :=
  (match q with
   | .rejected x => Except.error x
   | .resolved r => Except.ok { tag := ['b', 'u', 't', 't', 'o', 'n'], text := pageText r },
   [QueryCall.findMany ['U', 's', 'e', 'r'] []])

/-- The render results of a batch of simultaneous render invocations: each
invocation runs on its own query outcome, sharing no state with the others. -/
def concurrentRun (qs : List QueryOutcome) : List (Except Reason Element × List QueryCall) :=
  qs.map runPage

/-- A concrete batch of three simultaneous query outcomes, one resolving with
an empty result, one rejecting with an Error, one resolving with undefined. -/
def sampleOutcomes : List QueryOutcome :=
  [QueryOutcome.resolved (QueryResult.val (Json.arr [])),
   QueryOutcome.rejected (Reason.jsError ['b', 'o', 'o', 'm']),
   QueryOutcome.resolved QueryResult.undef]

/-- The observable result of one initialization of the database client
accessor module: the exported handle, the process-wide shared reference after
initialization, and how many client constructions the initialization
performed. Handles are identified by natural numbers. -/
structure InitResult where
  handle : Nat
  globalRef : Option Nat
  constructed : Nat

/-- Modelled from the spec: the database client accessor (src/lib/db.ts is not
in the provided sources; only its tests are). One module initialization with
runtime environment `env` (none for an absent flag), prior process-wide shared
reference `g`, and `fresh` the identity a newly constructed client would get:
reuse the shared handle if one exists, otherwise construct a new one; store the
handle back into the shared reference unless the environment is exactly
"production", in which case the shared reference is left untouched. -/
def initDb (env : Option String) (g : Option Nat) (fresh : Nat) : InitResult :=
  let handle := g.getD fresh
  { handle := handle
    globalRef := if env = some "production" then g else some handle
    constructed := if g.isSome then 0 else 1 }

/-- How many positions of `s` start an occurrence of the pattern `pat`. -/
def countSubstr (pat s : List Char) : Nat :=
  (s.tails.filter (fun t => pat.isPrefixOf t)).length

/-- Whether the pattern `pat` occurs somewhere in `s`. -/
def containsSub (pat s : List Char) : Bool :=
  s.tails.any (fun t => pat.isPrefixOf t)

/-- Modelled from the spec: the User record-type block of the schema
declaration (prisma/schema.prisma is not in the provided sources; only its
tests are): auto-incremented integer primary key, unique required email,
optional name, owned posts. -/
def userModelText : List Char :=
  ("model User \x7b\n  id Int @id @default(autoincrement())\n  email String @unique\n  name String?\n  posts Post[]\n\x7d").data

/-- Modelled from the spec: the Post record-type block of the schema
declaration: auto-incremented integer primary key, required title, optional
content, published flag defaulting to false, required authorId referencing
the User identity through the relation declaration. -/
def postModelText : List Char :=
  ("model Post \x7b\n  id Int @id @default(autoincrement())\n  title String\n  content String?\n  published Boolean @default(false)\n  authorId Int\n  author User @relation(fields: [authorId], references: [id])\n\x7d").data

/-- Modelled from the spec: the full schema declaration text: a documentation
comment, a generator block selecting the standard client generator with a
custom output path, a datasource block selecting PostgreSQL with the
connection string drawn from the DATABASE_URL environment variable, and the
two record-type blocks. -/
def schemaText : List Char :=
  ("// This is your Prisma schema file,\n// learn more about it in the docs: https://pris.ly/d/prisma-schema\n\ngenerator client \x7b\n  provider = \"prisma-client-js\"\n  output   = \"../src/generated/prisma\"\n\x7d\n\ndatasource db \x7b\n  provider = \"postgresql\"\n  url      = env(\"DATABASE_URL\")\n\x7d\n\n").data
    ++ userModelText ++ ('\n' :: '\n' :: postModelText) ++ ['\n']

/-! ## Decimal digit rendering and reading -/

theorem digitChar_toNat : ∀ d, d < 10 → (digitChar d).toNat = 48 + d := by decide

theorem isDigitCh_digitChar : ∀ d, d < 10 → isDigitCh (digitChar d) = true := by decide

theorem digitChar_not_special : ∀ d, d < 10 →
    (digitChar d ≠ 'n' ∧ digitChar d ≠ 't' ∧ digitChar d ≠ 'f' ∧ digitChar d ≠ '"' ∧
     digitChar d ≠ '[' ∧ digitChar d ≠ openBrace ∧ digitChar d ≠ '-' ∧ digitChar d ≠ ']') := by
  decide

theorem hexVal_hexDigitChar : ∀ d, d < 16 → hexVal (hexDigitChar d) = d := by decide

theorem parseDigits_stop (acc : Nat) (r : List Char) (h : headNotDigit r = true) :
    parseDigits acc r = (acc, r) := by
  cases r with
  | nil => rfl
  | cons c t =>
    simp only [headNotDigit, Bool.not_eq_eq_eq_not, Bool.not_true] at h
    simp [parseDigits, h]

theorem parseDigits_append (ds : List Char) (acc : Nat) (r : List Char)
    (hds : ∀ c ∈ ds, isDigitCh c = true) (hr : headNotDigit r = true) :
    parseDigits acc (ds ++ r) =
      (ds.foldl (fun a c => a * 10 + (c.toNat - 48)) acc, r) := by
  induction ds generalizing acc with
  | nil => simpa using parseDigits_stop acc r hr
  | cons c t ih =>
    have hc : isDigitCh c = true := hds c (by simp)
    simp only [List.cons_append, parseDigits, hc, if_pos, List.foldl_cons]
    exact ih _ (fun x hx => hds x (by simp [hx]))

theorem natChars_shape : ∀ n : Nat,
    ∃ d t, d < 10 ∧ natChars n = digitChar d :: t ∧ (∀ c ∈ t, isDigitCh c = true) := by
  intro n
  induction n using Nat.strongRecOn with
  | _ n ih =>
    by_cases h : n < 10
    · exact ⟨n, [], h, by rw [natChars]; simp [h], by simp⟩
    · obtain ⟨d, t, hd, ht, hdig⟩ := ih (n / 10) (Nat.div_lt_self (by omega) (by omega))
      refine ⟨d, t ++ [digitChar (n % 10)], hd, ?_, ?_⟩
      · rw [natChars]; simp [h, ht]
      · intro c hc
        rcases List.mem_append.mp hc with hc' | hc'
        · exact hdig c hc'
        · simp only [List.mem_singleton] at hc'
          subst hc'
          exact isDigitCh_digitChar _ (Nat.mod_lt _ (by omega))

theorem natChars_foldl : ∀ n acc : Nat,
    (natChars n).foldl (fun a c => a * 10 + (c.toNat - 48)) acc =
      acc * 10 ^ (natChars n).length + n := by
  intro n
  induction n using Nat.strongRecOn with
  | _ n ih =>
    intro acc
    by_cases h : n < 10
    · rw [natChars]
      simp [h, digitChar_toNat n h]
    · rw [natChars]
      simp only [h, dite_false, List.foldl_append, List.foldl_cons, List.foldl_nil,
        List.length_append, List.length_cons, List.length_nil]
      rw [ih (n / 10) (Nat.div_lt_self (by omega) (by omega)) acc]
      rw [digitChar_toNat (n % 10) (Nat.mod_lt _ (by omega))]
      have hmod : n % 10 ≤ n := Nat.mod_le _ _
      have : 48 + n % 10 - 48 = n % 10 := by omega
      rw [this, pow_succ]
      have hdm := Nat.div_add_mod n 10
      ring_nf
      omega

/-! ## String escaping round trip -/

theorem unescape_quote (s : List Char) : unescape ('"' :: s) = some ([], s) := by
  rw [unescape.eq_def]; simp

theorem unescape_plain (c : Char) (h1 : c ≠ '"') (h2 : c ≠ '\\') (s : List Char) :
    unescape (c :: s) = (unescape s).map (fun p => (c :: p.1, p.2)) := by
  rw [unescape.eq_def]; simp [h1, h2]

theorem unescape_esc (e d : Char) (hu : e ≠ 'u') (he : unescChar e = some d) (s : List Char) :
    unescape ('\\' :: e :: s) = (unescape s).map (fun p => (d :: p.1, p.2)) := by
  rw [unescape.eq_def]; simp [hu, he]

theorem unescape_unicode (h1 h2 h3 h4 : Char) (s : List Char) :
    unescape ('\\' :: 'u' :: h1 :: h2 :: h3 :: h4 :: s) =
      (unescape s).map (fun p =>
        (Char.ofNat (((hexVal h1 * 16 + hexVal h2) * 16 + hexVal h3) * 16 + hexVal h4)
          :: p.1, p.2)) := by
  rw [unescape.eq_def]; simp

theorem unescape_escapeBody : ∀ (cs r : List Char),
    unescape (escapeBody cs ++ '"' :: r) = some (cs, r) := by
  intro cs
  induction cs with
  | nil => intro r; simpa [escapeBody] using unescape_quote r
  | cons c t ih =>
    intro r
    simp only [escapeBody, List.append_assoc]
    by_cases h1 : c = '"'
    · subst h1
      have he : encodeChar '"' = ['\\', '"'] := by decide
      rw [he]
      simp only [List.cons_append, List.nil_append]
      rw [unescape_esc '"' '"' (by decide) (by decide), ih r]
      rfl
    · by_cases h2 : c = '\\'
      · subst h2
        have he : encodeChar '\\' = ['\\', '\\'] := by decide
        rw [he]
        simp only [List.cons_append, List.nil_append]
        rw [unescape_esc '\\' '\\' (by decide) (by decide), ih r]
        rfl
      · by_cases h3 : c = '\x08'
        · subst h3
          have he : encodeChar '\x08' = ['\\', 'b'] := by decide
          rw [he]
          simp only [List.cons_append, List.nil_append]
          rw [unescape_esc 'b' '\x08' (by decide) (by decide), ih r]
          rfl
        · by_cases h4 : c = '\t'
          · subst h4
            have he : encodeChar '\t' = ['\\', 't'] := by decide
            rw [he]
            simp only [List.cons_append, List.nil_append]
            rw [unescape_esc 't' '\t' (by decide) (by decide), ih r]
            rfl
          · by_cases h5 : c = '\n'
            · subst h5
              have he : encodeChar '\n' = ['\\', 'n'] := by decide
              rw [he]
              simp only [List.cons_append, List.nil_append]
              rw [unescape_esc 'n' '\n' (by decide) (by decide), ih r]
              rfl
            · by_cases h6 : c = '\x0c'
              · subst h6
                have he : encodeChar '\x0c' = ['\\', 'f'] := by decide
                rw [he]
                simp only [List.cons_append, List.nil_append]
                rw [unescape_esc 'f' '\x0c' (by decide) (by decide), ih r]
                rfl
              · by_cases h7 : c = '\r'
                · subst h7
                  have he : encodeChar '\r' = ['\\', 'r'] := by decide
                  rw [he]
                  simp only [List.cons_append, List.nil_append]
                  rw [unescape_esc 'r' '\r' (by decide) (by decide), ih r]
                  rfl
                · by_cases h8 : c.toNat < 32
                  · have he : encodeChar c = ['\\', 'u', '0', '0',
                        hexDigitChar (c.toNat / 16), hexDigitChar (c.toNat % 16)] := by
                      rw [encodeChar]
                      simp [h1, h2, h3, h4, h5, h6, h7, h8]
                    rw [he]
                    simp only [List.cons_append, List.nil_append]
                    rw [unescape_unicode, ih r]
                    have hv0 : hexVal '0' = 0 := by decide
                    rw [hv0]
                    rw [hexVal_hexDigitChar (c.toNat / 16) (by omega)]
                    rw [hexVal_hexDigitChar (c.toNat % 16) (Nat.mod_lt _ (by omega))]
                    have hval : ((0 * 16 + 0) * 16 + c.toNat / 16) * 16 + c.toNat % 16
                        = c.toNat := by omega
                    rw [hval, Char.ofNat_toNat]
                    rfl
                  · have he : encodeChar c = [c] := by
                      rw [encodeChar]
                      simp [h1, h2, h3, h4, h5, h6, h7, h8]
                    rw [he]
                    simp only [List.cons_append, List.nil_append]
                    rw [unescape_plain c h1 h2, ih r]
                    rfl

/-! ## Shape of serialized values -/

theorem stringify_shape : ∀ j : Json, ∃ c t, stringify j = c :: t ∧ c ≠ ']' := by
  intro j
  cases j with
  | null => exact ⟨'n', ['u', 'l', 'l'], by simp [stringify], by decide⟩
  | bool b =>
    cases b with
    | true => exact ⟨'t', ['r', 'u', 'e'], by simp [stringify, boolChars], by decide⟩
    | false => exact ⟨'f', ['a', 'l', 's', 'e'], by simp [stringify, boolChars], by decide⟩
  | num i =>
    by_cases hi : i < 0
    · exact ⟨'-', natChars i.natAbs, by simp [stringify, intChars, hi], by decide⟩
    · obtain ⟨d, t, hd, ht, _⟩ := natChars_shape i.natAbs
      exact ⟨digitChar d, t, by simp [stringify, intChars, hi, ht],
        (digitChar_not_special d hd).2.2.2.2.2.2.2⟩
  | str s => exact ⟨'"', escapeBody s ++ ['"'], by simp [stringify, encodeStr], by decide⟩
  | arr xs =>
    cases xs with
    | nil => exact ⟨'[', [']'], by simp [stringify], by decide⟩
    | cons x t =>
      exact ⟨'[', stringify x ++ stringifyElems t ++ [']'], by simp [stringify], by decide⟩
  | obj fs =>
    cases fs with
    | nil => exact ⟨openBrace, [closeBrace], by simp [stringify], by decide⟩
    | cons f t =>
      exact ⟨openBrace, stringifyField f ++ stringifyFields t ++ [closeBrace],
        by simp [stringify], by decide⟩



theorem stringifyField_eq (k : List Char) (v : Json) :
    stringifyField (k, v) = '"' :: (escapeBody k ++ ('"' :: (':' :: stringify v))) := by
  simp [stringifyField, encodeStr]

mutual

theorem rt_val (j : Json) (fuel : Nat) (r : List Char)
    (hf : (stringify j).length ≤ fuel) (hr : headNotDigit r = true) :
    parseVal fuel (stringify j ++ r) = some (j, r) := by
  obtain ⟨g, rfl⟩ : ∃ g, fuel = g + 1 := by
    obtain ⟨c, t, hct, _⟩ := stringify_shape j
    cases fuel with
    | zero => rw [hct] at hf; simp at hf
    | succ g => exact ⟨g, rfl⟩
  cases hj : j with
  | null => simp [stringify, parseVal]
  | bool b => cases b <;> simp [stringify, boolChars, parseVal]
  | str s =>
    simp only [stringify, encodeStr, List.cons_append, List.append_assoc,
      List.singleton_append]
    simp only [parseVal]
    rw [unescape_escapeBody]
    simp
  | num i =>
    obtain ⟨d, t, hd, ht, hdig⟩ := natChars_shape i.natAbs
    obtain ⟨n1, n2, n3, n4, n5, n6, n7, n8⟩ := digitChar_not_special d hd
    have hfold : (natChars i.natAbs).foldl (fun a c => a * 10 + (c.toNat - 48)) 0
        = i.natAbs := by
      rw [natChars_foldl]; simp
    rw [ht, List.foldl_cons, digitChar_toNat d hd] at hfold
    have hzero : 0 * 10 + (48 + d - 48) = d := by omega
    rw [hzero] at hfold
    have h48 : (48 : Nat) + d - 48 = d := by omega
    by_cases hi : i < 0
    · have hint : -((i.natAbs : Nat) : Int) = i := by omega
      simp only [stringify, intChars, if_pos hi, ht, List.cons_append]
      simp only [parseVal]
      rw [if_neg (show ¬(('-' : Char) = 'n') from by decide),
        if_neg (show ¬(('-' : Char) = 't') from by decide),
        if_neg (show ¬(('-' : Char) = 'f') from by decide),
        if_neg (show ¬(('-' : Char) = '"') from by decide),
        if_neg (show ¬(('-' : Char) = '[') from by decide),
        if_neg (show ¬(('-' : Char) = openBrace) from by decide),
        if_pos (show True from trivial)]
      rw [if_pos (isDigitCh_digitChar d hd)]
      rw [digitChar_toNat d hd, h48]
      rw [parseDigits_append t d r hdig hr]
      dsimp only
      rw [hfold, hint]
    · have hint : ((i.natAbs : Nat) : Int) = i := by omega
      simp only [stringify, intChars, if_neg hi, ht, List.cons_append]
      simp only [parseVal]
      rw [if_neg n1, if_neg n2, if_neg n3, if_neg n4, if_neg n5, if_neg n6, if_neg n7,
        if_pos (isDigitCh_digitChar d hd)]
      rw [digitChar_toNat d hd, h48]
      rw [parseDigits_append t d r hdig hr]
      dsimp only
      rw [hfold, hint]
  | arr xs =>
    cases xs with
    | nil => simp [stringify, parseVal]
    | cons x t =>
      have hlen : (stringify x).length + (stringifyElems t).length + 1 ≤ g := by
        rw [hj] at hf
        simp only [stringify, List.length_cons, List.length_append,
          List.length_singleton] at hf
        omega
      have harr := rt_items x t g r hlen
      obtain ⟨cx, tx, hx, hne⟩ := stringify_shape x
      simp only [stringify, List.cons_append, List.append_assoc, List.singleton_append,
        List.nil_append]
      simp only [parseVal]
      rw [if_neg (show ¬(('[' : Char) = 'n') from by decide),
        if_neg (show ¬(('[' : Char) = 't') from by decide),
        if_neg (show ¬(('[' : Char) = 'f') from by decide),
        if_neg (show ¬(('[' : Char) = '"') from by decide),
        if_pos (show True from trivial)]
      rw [hx, List.cons_append]
      dsimp only
      rw [if_neg hne]
      rw [← List.cons_append, ← hx, harr]
      rfl
  | obj fs =>
    cases fs with
    | nil => simp [stringify, parseVal, openBrace, closeBrace]
    | cons f t =>
      obtain ⟨k, v⟩ := f
      have hlen : (stringifyField (k, v)).length + (stringifyFields t).length + 1 ≤ g := by
        rw [hj] at hf
        simp only [stringify, List.length_cons, List.length_append,
          List.length_singleton] at hf
        omega
      have hobj := rt_fields k v t g r hlen
      simp only [stringify, List.cons_append, List.append_assoc, List.singleton_append,
        List.nil_append]
      simp only [parseVal]
      rw [if_neg (show ¬(openBrace = 'n') from by decide),
        if_neg (show ¬(openBrace = 't') from by decide),
        if_neg (show ¬(openBrace = 'f') from by decide),
        if_neg (show ¬(openBrace = '"') from by decide),
        if_neg (show ¬(openBrace = '[') from by decide),
        if_pos (show True from trivial)]
      rw [stringifyField_eq, List.cons_append]
      dsimp only
      rw [if_neg (show ¬(('"' : Char) = closeBrace) from by decide)]
      rw [← List.cons_append, ← stringifyField_eq, hobj]
      rfl
  termination_by sizeOf j
  decreasing_by
  all_goals subst hj
  all_goals simp
  all_goals omega

theorem rt_items (x : Json) (xs : List Json) (fuel : Nat) (r : List Char)
    (hf : (stringify x).length + (stringifyElems xs).length + 1 ≤ fuel) :
    parseItems fuel (stringify x ++ (stringifyElems xs ++ (']' :: r))) = some (x :: xs, r) := by
  obtain ⟨g, rfl⟩ : ∃ g, fuel = g + 1 := by
    cases fuel with
    | zero => omega
    | succ g => exact ⟨g, rfl⟩
  have hnd : headNotDigit (stringifyElems xs ++ (']' :: r)) = true := by
    cases xs with
    | nil => simp only [stringifyElems, List.nil_append]; rfl
    | cons y ys => simp only [stringifyElems, List.cons_append]; rfl
  have hv := rt_val x g (stringifyElems xs ++ (']' :: r)) (by omega) hnd
  simp only [parseItems]
  rw [hv]
  cases hxs : xs with
  | nil =>
    simp only [stringifyElems, List.nil_append]
    rw [if_neg (show ¬((']' : Char) = ',') from by decide),
      if_pos (show True from trivial)]
  | cons y ys =>
    have hlen : (stringify y).length + (stringifyElems ys).length + 1 ≤ g := by
      rw [hxs] at hf
      simp only [stringifyElems, List.length_cons, List.length_append] at hf
      omega
    have hrec := rt_items y ys g r hlen
    simp only [stringifyElems, List.cons_append, List.append_assoc]
    rw [if_pos (show True from trivial)]
    rw [hrec]
    rfl
  termination_by 1 + sizeOf x + sizeOf xs
  decreasing_by
  all_goals try subst hxs
  all_goals try simp
  all_goals omega

theorem rt_fields (k : List Char) (v : Json) (fs : List (List Char × Json))
    (fuel : Nat) (r : List Char)
    (hf : (stringifyField (k, v)).length + (stringifyFields fs).length + 1 ≤ fuel) :
    parseFields fuel (stringifyField (k, v) ++ (stringifyFields fs ++ (closeBrace :: r)))
      = some ((k, v) :: fs, r) := by
  obtain ⟨g, rfl⟩ : ∃ g, fuel = g + 1 := by
    cases fuel with
    | zero => omega
    | succ g => exact ⟨g, rfl⟩
  have hnd : headNotDigit (stringifyFields fs ++ (closeBrace :: r)) = true := by
    cases fs with
    | nil => simp only [stringifyFields, List.nil_append]; rfl
    | cons f2 gs => simp only [stringifyFields, List.cons_append]; rfl
  have hlenv : (stringify v).length ≤ g := by
    simp only [stringifyField, encodeStr, List.length_append, List.length_cons] at hf
    omega
  have hv := rt_val v g (stringifyFields fs ++ (closeBrace :: r)) hlenv hnd
  rw [stringifyField_eq]
  simp only [List.cons_append, List.append_assoc]
  simp only [parseFields]
  rw [if_pos (show True from trivial)]
  rw [unescape_escapeBody]
  dsimp only
  rw [if_pos (show ((':' : Char) = ':') from rfl)]
  rw [hv]
  cases hfs : fs with
  | nil =>
    simp only [stringifyFields, List.nil_append]
    rw [if_neg (show ¬(closeBrace = ',') from by decide),
      if_pos (show True from trivial)]
  | cons f2 gs =>
    obtain ⟨k2, v2⟩ := f2
    have hlen : (stringifyField (k2, v2)).length + (stringifyFields gs).length + 1 ≤ g := by
      rw [hfs] at hf
      simp only [stringifyFields, List.length_cons, List.length_append] at hf
      omega
    have hrec := rt_fields k2 v2 gs g r hlen
    simp only [stringifyFields, List.cons_append, List.append_assoc]
    rw [if_pos (show True from trivial)]
    rw [hrec]
    rfl
  termination_by 1 + sizeOf k + sizeOf v + sizeOf fs
  decreasing_by
  all_goals try subst hfs
  all_goals try simp
  all_goals omega

end


theorem parse_stringify (j : Json) : parse (stringify j) = some j := by
  have h := rt_val j (stringify j).length [] (le_refl _) rfl
  rw [List.append_nil] at h
  simp [parse, h]


/-! ## Claim theorems -/

/-- C1: For every array R of User-shaped records, a render invocation whose
query resolves with R produces a button element whose visible text is exactly
the JSON serialization of R, parsing that text back yields a value deep-equal
to the serialized R, and for the empty array the visible text is the literal
text []. -/
theorem c1_render_serializes_users_roundtrip (R : List User) :
    runPage (QueryOutcome.resolved (QueryResult.val (usersJson R)))
      = (Except.ok { tag := ['b', 'u', 't', 't', 'o', 'n'],
                     text := stringify (usersJson R) },
         [QueryCall.findMany ['U', 's', 'e', 'r'] []]) ∧
    parse (stringify (usersJson R)) = some (usersJson R) ∧
    stringify (usersJson ([] : List User)) = ['[', ']'] :=
  ⟨rfl, parse_stringify (usersJson R), rfl⟩

/-- C2: For every rejection reason X, Error instance or non-Error value alike,
a render invocation whose query rejects with X itself rejects with the
identical value X, with no recovery and no fallback content; the single query
is still the one that was issued. -/
theorem c2_rejection_propagates_identically (x : Reason) :
    runPage (QueryOutcome.rejected x)
      = (Except.error x, [QueryCall.findMany ['U', 's', 'e', 'r'] []]) := rfl

/-- C3: For every runtime environment other than "production", the first
initialization stores the constructed handle in the process-wide shared
state, and a second cold initialization in the same process yields the same
handle reference. -/
theorem c3_nonproduction_singleton (env : Option String)
    (h : env ≠ some "production") (n1 n2 : Nat) :
    (initDb env none n1).globalRef = some (initDb env none n1).handle ∧
    (initDb env ((initDb env none n1).globalRef) n2).handle
      = (initDb env none n1).handle := by
  simp [initDb, h]

theorem c3_witness :
    ((some "development" : Option String) ≠ some "production") ∧
    ((initDb (some "development") none 0).globalRef
        = some (initDb (some "development") none 0).handle ∧
      (initDb (some "development") ((initDb (some "development") none 0).globalRef) 1).handle
        = (initDb (some "development") none 0).handle) :=
  ⟨by decide, c3_nonproduction_singleton (some "development") (by decide) 0 1⟩

/-- C4: When the runtime environment is "production", initialization leaves
the process-wide shared reference unchanged whatever it holds, while the
handle is still constructed exactly once and exported. -/
theorem c4_production_global_untouched (g : Option Nat) (n : Nat) :
    (initDb (some "production") g n).globalRef = g ∧
    (initDb (some "production") none n).handle = n ∧
    (initDb (some "production") none n).constructed = 1 := by
  simp [initDb]

/-- C5: For every runtime-environment value other than exactly "production",
including arbitrary strings, the empty string and an absent value, a cold
initialization takes the same non-production caching branch: it completes,
constructs exactly one client, yields it as a defined handle and caches it in
the shared state. -/
theorem c5_nonproduction_branch_uniform (env : Option String)
    (h : env ≠ some "production") (n : Nat) :
    (initDb env none n).handle = n ∧
    (initDb env none n).globalRef = some n ∧
    (initDb env none n).constructed = 1 := by
  simp [initDb, h]

theorem c5_witness :
    (((some "staging" : Option String) ≠ some "production") ∧
      ((initDb (some "staging") none 5).handle = 5 ∧
        (initDb (some "staging") none 5).globalRef = some 5 ∧
        (initDb (some "staging") none 5).constructed = 1)) ∧
    (((some "" : Option String) ≠ some "production") ∧
      ((initDb (some "") none 7).handle = 7 ∧
        (initDb (some "") none 7).globalRef = some 7 ∧
        (initDb (some "") none 7).constructed = 1)) ∧
    (((none : Option String) ≠ some "production") ∧
      ((initDb none none 9).handle = 9 ∧
        (initDb none none 9).globalRef = some 9 ∧
        (initDb none none 9).constructed = 1)) :=
  ⟨⟨by decide, c5_nonproduction_branch_uniform (some "staging") (by decide) 5⟩,
   ⟨by decide, c5_nonproduction_branch_uniform (some "") (by decide) 7⟩,
   ⟨by decide, c5_nonproduction_branch_uniform none (by decide) 9⟩⟩

/-- C6: Every render invocation, whatever its query outcome, issues exactly
one fetch-all findMany query against the User table, called with no
arguments, and issues no other query. -/
theorem c6_exactly_one_argumentless_query (q : QueryOutcome) :
    (runPage q).2 = [QueryCall.findMany ['U', 's', 'e', 'r'] []] ∧
    (runPage q).2.length = 1 := ⟨rfl, rfl⟩

set_option maxRecDepth 10000 in
/-- C7: The schema declaration text contains exactly two record-type blocks
(User and Post), exactly two primary-key markers in total, one inside each
block, and the Post-to-User relation declaration references fields authorId
and references id exactly. -/
theorem c7_schema_models_ids_relation :
    countSubstr (("model ").data) schemaText = 2 ∧
    containsSub userModelText schemaText = true ∧
    containsSub postModelText schemaText = true ∧
    countSubstr (("@id").data) schemaText = 2 ∧
    countSubstr (("@id").data) userModelText = 1 ∧
    countSubstr (("@id").data) postModelText = 1 ∧
    containsSub (("@relation(fields: [authorId], references: [id])").data) schemaText
      = true := by
  decide

set_option maxRecDepth 10000 in
/-- C8: In the schema declaration, Post.published is a Boolean field
defaulting to false, the optional fields User.name and Post.content are
marked optional with a question mark, and User.email carries a uniqueness
constraint. -/
theorem c8_schema_field_constraints :
    containsSub (("published Boolean @default(false)").data) schemaText = true ∧
    containsSub (("name String?").data) userModelText = true ∧
    containsSub (("content String?").data) postModelText = true ∧
    containsSub (("email String @unique").data) userModelText = true := by
  decide

/-- C9: For any batch of at least three simultaneous render invocations, each
invocation independently issues its own single query and independently
resolves to exactly the render of its own query outcome, sharing no state
with the others. -/
theorem c9_concurrent_renders_independent (qs : List QueryOutcome)
    (h : 3 ≤ qs.length) :
    (concurrentRun qs).length = qs.length ∧
    (∀ i : Nat, (concurrentRun qs)[i]? = (qs[i]?).map runPage) ∧
    (∀ p ∈ concurrentRun qs, p.2 = [QueryCall.findMany ['U', 's', 'e', 'r'] []]) := by
  refine ⟨by simp [concurrentRun], fun i => by simp [concurrentRun, List.getElem?_map], ?_⟩
  intro p hp
  obtain ⟨q, _, rfl⟩ := List.mem_map.mp hp
  rfl

theorem c9_witness :
    3 ≤ sampleOutcomes.length ∧
    ((concurrentRun sampleOutcomes).length = sampleOutcomes.length ∧
      (∀ i : Nat, (concurrentRun sampleOutcomes)[i]? = (sampleOutcomes[i]?).map runPage) ∧
      (∀ p ∈ concurrentRun sampleOutcomes,
        p.2 = [QueryCall.findMany ['U', 's', 'e', 'r'] []])) :=
  ⟨by decide, c9_concurrent_renders_independent sampleOutcomes (by decide)⟩

/-- C10: If the query resolves with the JavaScript undefined value instead of
an array, the render invocation still completes successfully, producing the
button element (whose visible text is empty, since stringifying undefined
yields no rendered text), and does not reject. -/
theorem c10_undefined_result_still_renders :
    runPage (QueryOutcome.resolved QueryResult.undef)
      = (Except.ok { tag := ['b', 'u', 't', 't', 'o', 'n'], text := [] },
         [QueryCall.findMany ['U', 's', 'e', 'r'] []]) := rfl

end Nodebase
